import Mathlib

/-!
Shallow embedding of the InfluxDB storage adapter
(`aw_datastore/storages/influxdb.py`, class `InfluxDBStorage`).

Conventions of the embedding:
* Timestamps are integers counting milliseconds since the Unix epoch
  (the adapter fixes `time_precision = "ms"` for its lifetime and queries
  with `epoch=self.time_precision`, so every `time` value crossing the
  wire is such an integer).
* Durations are rationals (seconds, the value of
  `event.duration.total_seconds()`); no arithmetic is performed on them
  by the adapter, they are stored and read back verbatim.
* Python scalar values stored in tag/field maps are modelled by `Value`;
  Python truthiness is `truthy`.
* Python dicts keyed by strings are association lists with
  insert-or-replace update (`setA`) and first-match lookup (`lookupA`);
  dicts built by the code never hold duplicate keys, so the two agree.
* The backend (an external collaborator) is modelled from the spec:
  a database maps a series name to its list of points, a point is keyed
  by its timestamp within the series, and a later write with the same
  (series, timestamp) silently replaces the earlier point.
-/

/-- Scalar values as they appear in tag sets, field sets and event data
bags.  `null` models Python's `None` (and InfluxDB's null field). -/
inductive Value where
  | null : Value
  | b : Bool → Value
  | i : Int → Value
  | f : ℚ → Value
  | s : String → Value
deriving DecidableEq, Repr

/-- Python truthiness of a scalar: `None`, `False`, `0`, `0.0` and `""`
are falsy, everything else is truthy. -/
def truthy : Value → Bool
  | Value.null => false
  | Value.b x => x
  | Value.i n => n ≠ 0
  | Value.f q => q ≠ 0
  | Value.s x => x ≠ ""

/-- Events as the adapter sees them (`aw_core.models.Event` is an
external collaborator; the spec treats it as an opaque bag with an
optional integer id, a timestamp, a duration and a data mapping, and the
adapter constructs it positionally as `Event(id, timestamp, duration,
data)`). -/
structure Event where
  id : Option Int
  timestamp : Int
  duration : ℚ
  data : List (String × Value)
deriving DecidableEq, Repr

/-- One backend point: measurement (series) name, time key, indexed tag
set and stored field set, exactly the shape the adapter hands to
`write_points`. -/
structure Point where
  measurement : String
  time : Int
  tags : List (String × Value)
  fields : List (String × Value)
deriving DecidableEq, Repr

/-- Backend database state: each series name is mapped to the list of
points currently stored in that series. -/
def Database := String → List Point

/-- The empty database. -/
def emptyDB : Database := fun _ => []

/-- First-match lookup in a string-keyed association list (Python dict
read `d[k]` / `d.get(k)`). -/
def lookupA : List (String × Value) → String → Option Value
  | [], _ => none
  | (k1, v) :: rest, k => if k1 = k then some v else lookupA rest k

/-- Insert-or-replace update of a string-keyed association list (Python
dict write `d[k] = v`): an existing binding is replaced in place, a new
key is appended at the end. -/
def setA : List (String × Value) → String → Value → List (String × Value)
  | [], k, v => [(k, v)]
  | (k1, v1) :: rest, k, v =>
    if k1 = k then (k, v) :: rest else (k1, v1) :: setA rest k v

/-- Left fold of dict updates over a list of entries: entries satisfying
`P` are written into the accumulator dict under the key `κ kv.1`.  This
is the shape of every `for key in ...: d[...] = ...` loop in the
adapter. -/
def dictFoldK (P : String × Value → Bool) (κ : String → String)
    (init : List (String × Value)) (l : List (String × Value)) :
    List (String × Value) :=
  l.foldl (fun d kv => if P kv then setA d (κ kv.1) kv.2 else d) init

/-- Write one point into a series: a point whose time key equals the time
of an already stored point replaces it in place, otherwise the point is
appended.  Modelled from the spec: the backend treats identical
(series, timestamp) as the same record and the later write silently
wins. -/
def setT : List Point → Point → List Point
  | [], p => [p]
  | q :: rest, p => if q.time = p.time then p :: rest else q :: setT rest p

/-- Backend `write_points` for a single point. -/
def write_point (p : Point) (db : Database) : Database :=
  fun m => if m = p.measurement then setT (db m) p else db m

/-- Backend `write_points` for a batch, written left to right. -/
def write_points (ps : List Point) (db : Database) : Database :=
  ps.foldl (fun d p => write_point p d) db

/-- The adapter-wide tag set: `self.tags = ("app", "status")`. -/
def adapter_tags : List String := ["app", "status"]

/-- Value written for the `id` field: `event.id`, with a missing id
(Python `None`) becoming a null field. -/
def valOfId : Option Int → Value
  | none => Value.null
  | some n => Value.i n

/-- The event-to-point codec `_event_parser_to(bucket_id, event)`: one
point with measurement `bucket_id`, time `event.timestamp`, fields
`{id: event.id, duration: event.duration.total_seconds()}` updated with
every data attribute, and each attribute whose name is in the adapter
tag set additionally copied into the tag set under an underscore-escaped
key (the source does both updates in one pass over `event.data`; the two
folds below consume the same entries in the same order). -/
def event_parser_to (bucket_id : String) (e : Event) : Point :=
  { measurement := bucket_id
    time := e.timestamp
    tags := dictFoldK (fun kv => kv.1 ∈ adapter_tags) (fun k => "_" ++ k) [] e.data
    fields := dictFoldK (fun _ => true) (fun k => k)
      [("id", valOfId e.id), ("duration", Value.f e.duration)] e.data }

/-- The flat record a `SELECT *` query yields for one stored point: the
`time` key followed by the point's fields and tags as columns. -/
def result_row (p : Point) : List (String × Value) :=
  ("time", Value.i p.time) :: p.fields ++ p.tags

/-- Integer read of a record column (the `int(event["time"])` cast; rows
produced by the backend always hold an integer there). -/
def intOf : Option Value → Int
  | some (Value.i n) => n
  | _ => 0

/-- Rational read of a record column (the `duration` field; rows written
by this adapter always hold a rational there). -/
def ratOf : Option Value → ℚ
  | some (Value.f q) => q
  | _ => 0

/-- Keep-condition of the attribute loop in `_event_parser_from`: a
column is copied into the event data bag iff its key is neither `time`
nor `duration`, does not start with an underscore (`key[0] != "_"`, the
tag columns), and its value is truthy (`if event[key]`). -/
def keepColumn (kv : String × Value) : Bool :=
  decide (kv.1 ≠ "time") && decide (kv.1 ≠ "duration") &&
    decide (kv.1.data.head? ≠ some '_') && truthy kv.2

/-- Decoding of one result record in `_event_parser_from`: the event id
is the raw `time` column (the integer epoch offset), the timestamp is
the calendar time reconstructed from that same integer, the duration is
the `duration` column, and the data bag collects every kept column. -/
def event_parser_from_one (r : List (String × Value)) : Event :=
  { id := some (intOf (lookupA r "time"))
    timestamp := intOf (lookupA r "time")
    duration := ratOf (lookupA r "duration")
    data := dictFoldK keepColumn (fun k => k) [] r }

/-- The result-stream decoder `_event_parser_from`: one event per
record, in result order. -/
def event_parser_from (rows : List (List (String × Value))) : List Event :=
  rows.map event_parser_from_one

/-- Descending time order used by `ORDER BY time DESC`. -/
def timeDesc (a b : Point) : Prop := b.time ≤ a.time

instance : DecidableRel timeDesc :=
  fun a b => inferInstanceAs (Decidable (b.time ≤ a.time))

instance : IsTotal Point timeDesc :=
  ⟨fun a b => le_total b.time a.time⟩

instance : IsTrans Point timeDesc :=
  ⟨fun _ _ _ h1 h2 => le_trans h2 h1⟩

/-- Ascending time order, the backend's default result order. -/
def timeAsc (a b : Point) : Prop := a.time ≤ b.time

instance : DecidableRel timeAsc :=
  fun a b => inferInstanceAs (Decidable (a.time ≤ b.time))

instance : IsTotal Point timeAsc :=
  ⟨fun a b => le_total a.time b.time⟩

instance : IsTrans Point timeAsc :=
  ⟨fun _ _ _ h1 h2 => le_trans h1 h2⟩

/-- The inclusive range filter built by `get_events`: `time >= start`
and/or `time <= end` for whichever bounds were supplied. -/
def inBounds (starttime endtime : Option Int) (t : Int) : Bool :=
  (match starttime with
    | none => true
    | some a => decide (a ≤ t)) &&
  (match endtime with
    | none => true
    | some b => decide (t ≤ b))

/-- `get_events(bucket_id, limit, starttime, endtime)`: select the
bucket's points, restricted by the inclusive time bounds when supplied,
ordered by time descending; the `LIMIT` clause is appended only when
`limit and limit > -1` holds in Python, i.e. when `limit` is nonzero and
greater than `-1`; finally the rows are decoded by
`_event_parser_from`. -/
def get_events (bucket_id : String) (limit : Int)
    (starttime endtime : Option Int) (db : Database) : List Event :=
  let rows := ((db bucket_id).filter
    (fun p => inBounds starttime endtime p.time)).insertionSort timeDesc
  let capped := if limit ≠ 0 ∧ -1 < limit then rows.take limit.toNat else rows
  event_parser_from (capped.map result_row)

/-- Non-null `id` field of a stored point, if any: `COUNT(id)` and
`last(id)` consider exactly the points for which this is `some`. -/
def idValOf (p : Point) : Option Value :=
  match lookupA p.fields "id" with
  | none => none
  | some v => if v = Value.null then none else some v

/-- `get_eventcount(bucket_id, starttime, endtime)`: issues
`SELECT COUNT (id) FROM "bucket_id"` — the `starttime`/`endtime`
arguments are accepted but never placed into the query, so every point
of the series with a non-null `id` field is counted; when the count is
zero the query yields no row and the initial `result = 0` is
returned. -/
def get_eventcount (bucket_id : String)
    (starttime endtime : Option Int) (db : Database) : Nat :=
  ((db bucket_id).filter (fun p => (idValOf p).isSome)).length

/-- Backend evaluation of `SELECT last(id) FROM series`: the time key
and field value of the point with the greatest time among those whose
`id` field is non-null, if any.  Modelled from the spec: query for the
last non-null `id` field in the series. -/
def selectLast : List Point → Option (Int × Value)
  | [] => none
  | p :: rest =>
    match selectLast rest, idValOf p with
    | none, none => none
    | none, some v => some (p.time, v)
    | some r, none => some r
    | some r, some v => if r.1 ≤ p.time then some (p.time, v) else some r

/-- `_get_last_event_id(bucket_id)`: run `SELECT last(id)` and return
`item["time"]` of the resulting row — the time key, not the stored `id`
field value; `None` when the series has no non-null `id` field. -/
def _get_last_event_id (bucket_id : String) (db : Database) : Option Int :=
  (selectLast (db bucket_id)).map Prod.fst

/-- `insert_one(bucket_id, event)`: encode the event, write the single
point, then re-derive the event's id from the freshly written series via
`_get_last_event_id` and return the event. -/
def insert_one (bucket_id : String) (e : Event) (db : Database) :
    Event × Database :=
  let db1 := write_point (event_parser_to bucket_id e) db
  ({ e with id := _get_last_event_id bucket_id db1 }, db1)

/-- `insert_many(bucket_id, events)`: the loop body reads
`data, event = self._event_parser_to(bucket_id, event)`, i.e. it
tuple-unpacks the returned point dict — which has the four keys
`measurement`, `tags`, `time`, `fields` — into two names, so the first
iteration raises `ValueError: too many values to unpack (expected 2)`
before anything is written; only an empty event list reaches the (empty)
bulk write. -/
def insert_many (bucket_id : String) (events : List Event) (db : Database) :
    Except String Database :=
  match events with
  | [] => Except.ok (write_points [] db)
  | _ :: _ => Except.error "ValueError: too many values to unpack (expected 2)"

/-- Removal of the first point satisfying a predicate, if any.  Modelled
from the spec: the backend's delete-by-field-predicate removes at most
one record matching the `id` field. -/
def removeFirstMatch (P : Point → Bool) : List Point → List Point
  | [] => []
  | p :: rest => if P p then rest else p :: removeFirstMatch P rest

/-- `delete(bucket_id, event_id)`: issues the delete query scoped to the
bucket's series and falls off the end of the function — despite the
declared `-> bool` return type the Python method always returns `None`,
modelled as the constant `none` first component. -/
def delete (bucket_id : String) (event_id : Int) (db : Database) :
    Option Bool × Database :=
  (none,
    fun m =>
      if m = bucket_id then
        removeFirstMatch
          (fun p => lookupA p.fields "id" = some (Value.i event_id)) (db m)
      else db m)

/-- `replace(bucket_id, event_id, event)`: force `event.id = event_id`
and delegate to `insert_one`. -/
def replace (bucket_id : String) (event_id : Int) (e : Event)
    (db : Database) : Event × Database :=
  insert_one bucket_id { e with id := some event_id } db

/-- `replace_last(bucket_id, event)`: fetch `_get_last_event_id`, assign
it to the event, delegate to `insert_one`. -/
def replace_last (bucket_id : String) (e : Event) (db : Database) :
    Event × Database :=
  insert_one bucket_id { e with id := _get_last_event_id bucket_id db } db

/-- Python error values surfaced by the adapter.  `stopIteration` is what
`next(generator)` raises on an empty result; the adapter never
constructs the `notFound` or `integrity` errors the spec calls
`NotFoundError` and `IntegrityError`. -/
inductive PyErr where
  | stopIteration : PyErr
  | notFound : PyErr
  | integrity : PyErr
deriving DecidableEq, Repr

/-- `get_metadata(bucket_id)`: query the metadata series filtered by the
bucket-id tag (backend default result order is time ascending) and take
`next(generator)` — the first matching record, raising `StopIteration`
when there is none; further matches are silently ignored. -/
def get_metadata (bucket_id : String) (db : Database) :
    Except PyErr (List (String × Value)) :=
  let rows := ((db "metadata").filter
    (fun p => lookupA p.tags "id" = some (Value.s bucket_id))).insertionSort timeAsc
  match rows with
  | [] => Except.error PyErr.stopIteration
  | p :: _ => Except.ok (result_row p)

/-- `create_bucket(bucket_id, type_id, client, hostname, created, name)`:
write one metadata point into the `metadata` series at time `created`
tagged by the bucket id, then write the zero-duration sentinel point
into the bucket's own series at time zero (the `created` argument is an
ISO timestamp string in the source; the embedding carries it as the
integer epoch offset it denotes at the adapter's precision). -/
def create_bucket (bucket_id type_id client hostname : String)
    (created : Int) (name : Option String) (db : Database) : Database :=
  let metadata : Point :=
    { measurement := "metadata"
      time := created
      tags := [("id", Value.s bucket_id), ("_id", Value.s "metadata")]
      fields :=
        [("name", match name with | some n => Value.s n | none => Value.null),
          ("type", Value.s type_id), ("client", Value.s client),
          ("hostname", Value.s hostname), ("created", Value.i created)] }
  let dummyevent : Point :=
    { measurement := bucket_id, time := 0, tags := []
      fields := [("duration", Value.f 0)] }
  write_point dummyevent (write_point metadata db)

/-- Sentinel point of the concrete bucket used for the replace-last
scenario. -/
def pDummyC1 : Point :=
  { measurement := "b", time := 0, tags := [], fields := [("duration", Value.f 0)] }

/-- One pre-existing real event (non-null id field) in the replace-last
scenario's bucket. -/
def pOneC1 : Point :=
  { measurement := "b", time := 1, tags := []
    fields := [("id", Value.i 1), ("duration", Value.f 1)] }

/-- A concrete database whose bucket `b` already contains events. -/
def dbC1 : Database := fun m => if m = "b" then [pDummyC1, pOneC1] else []

/-- Event inserted before the replace-last call (non-null id, written at
millisecond 2, later than everything already in the bucket). -/
def eventA_C1 : Event := { id := some 9, timestamp := 2, duration := 1, data := [] }

/-- Replacement event whose timestamp (millisecond 3) differs from the
timestamp of the event it is meant to replace. -/
def eventB_C1 : Event := { id := none, timestamp := 3, duration := 2, data := [] }

/-- Replacement event sharing the inserted event's timestamp, as the
amended replace-last property requires. -/
def eventBW_C1 : Event := { id := none, timestamp := 2, duration := 2, data := [] }

/-- A concrete database whose bucket `b` holds exactly one event. -/
def dbC2 : Database :=
  fun m =>
    if m = "b" then
      [{ measurement := "b", time := 1, tags := []
         fields := [("id", Value.i 1), ("duration", Value.f 1)] }]
    else []

/-- A concrete database whose bucket `b` holds two events, for the limit
witness. -/
def dbC2w : Database :=
  fun m =>
    if m = "b" then
      [{ measurement := "b", time := 1, tags := []
         fields := [("id", Value.i 1), ("duration", Value.f 1)] },
        { measurement := "b", time := 2, tags := []
          fields := [("id", Value.i 2), ("duration", Value.f 1)] }]
    else []

/-- A concrete database whose bucket `b` holds events at milliseconds 1
and 3, both with non-null id fields. -/
def dbC3 : Database :=
  fun m =>
    if m = "b" then
      [{ measurement := "b", time := 1, tags := []
         fields := [("id", Value.i 1), ("duration", Value.f 1)] },
        { measurement := "b", time := 3, tags := []
          fields := [("id", Value.i 3), ("duration", Value.f 1)] }]
    else []

/-- Event whose only attribute has an underscore-initial name: non-empty
attribute bag, positive duration, truthy value. -/
def eventC5 : Event :=
  { id := none, timestamp := 100, duration := 1, data := [("_a", Value.s "x")] }

/-- Event with an ordinary attribute bag (a tag-set name, a plain field
name and a falsy attribute) for the round-trip witness. -/
def eventC5w : Event :=
  { id := some 7, timestamp := 100, duration := 2
    data := [("app", Value.s "Firefox"), ("title", Value.s "t"), ("count", Value.i 0)] }

/-- Database produced by creating the same bucket twice with different
creation times: the metadata series then holds two records tagged with
the same bucket id. -/
def dbC6 : Database :=
  create_bucket "b1" "test" "cl" "host" 20 none
    (create_bucket "b1" "test" "cl" "host" 10 none emptyDB)

/-- A stored point whose `id` field value (99) differs from its time key
(5). -/
def pC7 : Point :=
  { measurement := "b", time := 5, tags := []
    fields := [("id", Value.i 99), ("duration", Value.f 1)] }

/-- Database for the last-event-id witness. -/
def dbC7 : Database := fun m => if m = "b" then [pC7] else []

/-- A concrete query-result record whose `time` key (42) differs from its
stored `id` field (7). -/
def rowC9 : List (String × Value) :=
  [("time", Value.i 42), ("duration", Value.f 1), ("id", Value.i 7)]

/-- Looking up the key just written returns the written value. -/
theorem lookupA_setA_self (d : List (String × Value)) (k : String) (v : Value) :
    lookupA (setA d k v) k = some v := by
  induction d with
  | nil => simp [setA, lookupA]
  | cons kv rest ih =>
    obtain ⟨k1, v1⟩ := kv
    by_cases h : k1 = k
    · simp [setA, h, lookupA]
    · simp [setA, h, lookupA, ih]

/-- Writing one key leaves lookups of every other key unchanged. -/
theorem lookupA_setA_ne (d : List (String × Value)) (k k1 : String) (v : Value)
    (h : k1 ≠ k) : lookupA (setA d k v) k1 = lookupA d k1 := by
  have hne : ¬k = k1 := fun hh => h hh.symm
  induction d with
  | nil => simp [setA, lookupA, hne]
  | cons kv rest ih =>
    obtain ⟨k2, v2⟩ := kv
    by_cases h2 : k2 = k
    · subst h2
      simp [setA, lookupA, hne]
    · simp only [setA, if_neg h2, lookupA]
      by_cases h3 : k2 = k1 <;> simp [h3, ih]

/-- Key list of a dict after one write: unchanged if the key was present,
extended by the key otherwise. -/
theorem keys_setA (d : List (String × Value)) (k : String) (v : Value) :
    (setA d k v).map Prod.fst =
      if k ∈ d.map Prod.fst then d.map Prod.fst else d.map Prod.fst ++ [k] := by
  induction d with
  | nil => simp [setA]
  | cons kv rest ih =>
    obtain ⟨k1, v1⟩ := kv
    by_cases h : k1 = k
    · subst h
      simp [setA]
    · have hne : ¬k = k1 := fun hh => h hh.symm
      by_cases hm : k ∈ rest.map Prod.fst <;>
        simp [setA, h, ih, hm, hne]

/-- A dict write preserves distinctness of the keys. -/
theorem nodup_keys_setA (d : List (String × Value)) (k : String) (v : Value)
    (h : (d.map Prod.fst).Nodup) : ((setA d k v).map Prod.fst).Nodup := by
  rw [keys_setA]
  by_cases hm : k ∈ d.map Prod.fst
  · simpa [hm] using h
  · simp only [if_neg hm]
    exact List.Nodup.append h (List.nodup_singleton k)
      (by simpa [List.disjoint_singleton] using hm)

/-- A successful lookup comes from an entry of the list. -/
theorem lookupA_mem (d : List (String × Value)) (k : String) (v : Value)
    (h : lookupA d k = some v) : (k, v) ∈ d := by
  induction d with
  | nil => simp [lookupA] at h
  | cons kv rest ih =>
    obtain ⟨k1, v1⟩ := kv
    by_cases h1 : k1 = k
    · subst h1
      simp [lookupA] at h
      subst h
      exact List.mem_cons_self _ _
    · simp only [lookupA, if_neg h1] at h
      exact List.mem_cons_of_mem _ (ih h)

/-- A lookup that succeeds on the left part of an appended dict succeeds
on the whole. -/
theorem lookupA_append_left (d1 d2 : List (String × Value)) (k : String)
    (v : Value) (h : lookupA d1 k = some v) : lookupA (d1 ++ d2) k = some v := by
  induction d1 with
  | nil => simp [lookupA] at h
  | cons kv rest ih =>
    obtain ⟨k1, v1⟩ := kv
    by_cases h1 : k1 = k
    · subst h1
      simp [lookupA] at h
      simp [lookupA, h]
    · simp only [lookupA, if_neg h1] at h ⊢
      exact ih h

/-- Unfolding of the dict-update fold on a cons cell. -/
theorem dictFoldK_cons (P : String × Value → Bool) (κ : String → String)
    (init : List (String × Value)) (kv : String × Value)
    (rest : List (String × Value)) :
    dictFoldK P κ init (kv :: rest) =
      dictFoldK P κ (if P kv then setA init (κ kv.1) kv.2 else init) rest := rfl

/-- A fold of dict updates never touches a key outside the image of the
written entries. -/
theorem lookupA_dictFoldK_of_not_mem (P : String × Value → Bool)
    (κ : String → String) (l init : List (String × Value)) (k : String)
    (h : ∀ kv ∈ l, κ kv.1 ≠ k) :
    lookupA (dictFoldK P κ init l) k = lookupA init k := by
  induction l generalizing init with
  | nil => rfl
  | cons kv rest ih =>
    rw [dictFoldK_cons]
    rw [ih _ fun kv2 hm => h kv2 (List.mem_cons_of_mem _ hm)]
    by_cases hP : P kv = true
    · rw [if_pos hP, lookupA_setA_ne]
      exact fun hh => h kv (List.mem_cons_self _ _) hh.symm
    · rw [if_neg hP]

/-- In a fold of dict updates over entries with distinct keys (written
under their own key), an entry that passes the filter is afterwards
found under its key. -/
theorem lookupA_dictFoldK_of_mem (P : String × Value → Bool)
    (l init : List (String × Value)) (k : String) (v : Value)
    (hn : (l.map Prod.fst).Nodup) (hm : (k, v) ∈ l) (hP : P (k, v) = true) :
    lookupA (dictFoldK P (fun k2 => k2) init l) k = some v := by
  induction l generalizing init with
  | nil => cases hm
  | cons kv rest ih =>
    have hn2 : (rest.map Prod.fst).Nodup := (List.nodup_cons.mp hn).2
    have hhead : kv.1 ∉ rest.map Prod.fst := (List.nodup_cons.mp hn).1
    by_cases hk : kv.1 = k
    · have hkv : kv = (k, v) := by
        rcases List.mem_cons.mp hm with h1 | h1
        · exact h1.symm
        · refine absurd ?_ hhead
          rw [hk]
          exact List.mem_map_of_mem Prod.fst h1
      subst hkv
      rw [dictFoldK_cons, if_pos hP]
      rw [lookupA_dictFoldK_of_not_mem _ _ _ _ _
        (fun kv2 hm2 hh => hhead (by
          have hh2 : kv2.1 = (k, v).1 := hh
          rw [← hh2]
          exact List.mem_map_of_mem Prod.fst hm2))]
      exact lookupA_setA_self _ _ _
    · have hm2 : (k, v) ∈ rest := by
        rcases List.mem_cons.mp hm with h1 | h1
        · exact absurd (congrArg Prod.fst h1).symm hk
        · exact h1
      rw [dictFoldK_cons]
      exact ih _ hn2 hm2

/-- Every key of a dict built by a fold of updates is a key of the
initial dict or the image of a written entry's key. -/
theorem mem_keys_dictFoldK (P : String × Value → Bool) (κ : String → String)
    (l init : List (String × Value)) (k : String)
    (h : k ∈ (dictFoldK P κ init l).map Prod.fst) :
    k ∈ init.map Prod.fst ∨ ∃ kv ∈ l, k = κ kv.1 := by
  induction l generalizing init with
  | nil => exact Or.inl h
  | cons kv rest ih =>
    rw [dictFoldK_cons] at h
    rcases ih _ h with h1 | ⟨kv2, hm2, he2⟩
    · by_cases hP : P kv = true
      · rw [if_pos hP, keys_setA] at h1
        by_cases hm : κ kv.1 ∈ init.map Prod.fst
        · exact Or.inl (by simpa [hm] using h1)
        · rw [if_neg hm] at h1
          rcases List.mem_append.mp h1 with h2 | h2
          · exact Or.inl h2
          · exact Or.inr ⟨kv, List.mem_cons_self _ _, List.mem_singleton.mp h2⟩
      · rw [if_neg hP] at h1
        exact Or.inl h1
    · exact Or.inr ⟨kv2, List.mem_cons_of_mem _ hm2, he2⟩

/-- A fold of dict updates preserves distinctness of the keys. -/
theorem nodup_keys_dictFoldK (P : String × Value → Bool) (κ : String → String)
    (l init : List (String × Value)) (h : (init.map Prod.fst).Nodup) :
    ((dictFoldK P κ init l).map Prod.fst).Nodup := by
  induction l generalizing init with
  | nil => exact h
  | cons kv rest ih =>
    rw [dictFoldK_cons]
    by_cases hP : P kv = true
    · rw [if_pos hP]
      exact ih _ (nodup_keys_setA _ _ _ h)
    · rw [if_neg hP]
      exact ih _ h

/-- Writing a point whose time key is new to the series appends it. -/
theorem setT_append_of_not_mem (L : List Point) (p : Point)
    (h : ∀ q ∈ L, q.time ≠ p.time) : setT L p = L ++ [p] := by
  induction L with
  | nil => rfl
  | cons q rest ih =>
    rw [setT, if_neg (h q (List.mem_cons_self _ _)), List.cons_append,
      ih fun q2 hm => h q2 (List.mem_cons_of_mem _ hm)]

/-- Writing a point with the same time key as the last stored point
replaces that point in place. -/
theorem setT_append_last (L : List Point) (p p2 : Point)
    (h : ∀ q ∈ L, q.time ≠ p2.time) (ht : p.time = p2.time) :
    setT (L ++ [p]) p2 = L ++ [p2] := by
  induction L with
  | nil => simp [setT, ht]
  | cons q rest ih =>
    rw [List.cons_append, setT, if_neg (h q (List.mem_cons_self _ _)),
      ih fun q2 hm => h q2 (List.mem_cons_of_mem _ hm), List.cons_append]

/-- An empty `last(id)` result means no stored point has a non-null `id`
field. -/
theorem selectLast_eq_none (L : List Point) (h : selectLast L = none) :
    ∀ q ∈ L, idValOf q = none := by
  induction L with
  | nil => intro q hq; cases hq
  | cons p rest ih =>
    intro q hq
    rcases List.mem_cons.mp hq with h1 | h1
    · subst h1
      cases hrest : selectLast rest <;> cases hp : idValOf q <;>
        simp [selectLast, hrest, hp] at h ⊢
      split at h <;> simp at h
    · refine ih ?_ q h1
      cases hrest : selectLast rest <;> cases hp : idValOf p <;>
        simp [selectLast, hrest, hp] at h ⊢
      split at h <;> simp at h

/-- A non-empty `last(id)` result is the time key and field value of a
stored point with a non-null `id` field whose time is maximal among all
such points. -/
theorem selectLast_eq_some (L : List Point) (r : Int × Value)
    (h : selectLast L = some r) :
    (∃ q ∈ L, q.time = r.1 ∧ idValOf q = some r.2) ∧
      ∀ q ∈ L, idValOf q ≠ none → q.time ≤ r.1 := by
  induction L generalizing r with
  | nil => simp [selectLast] at h
  | cons p rest ih =>
    cases hrest : selectLast rest <;> cases hp : idValOf p <;>
      simp only [selectLast, hrest, hp] at h
    · cases h
    · rename_i v
      injection h with h
      subst h
      refine ⟨⟨p, List.mem_cons_self _ _, rfl, hp⟩, ?_⟩
      intro q hq hid
      rcases List.mem_cons.mp hq with h1 | h1
      · subst h1; exact le_refl _
      · exact absurd (selectLast_eq_none rest hrest q h1) hid
    · rename_i r0
      injection h with h
      subst h
      obtain ⟨⟨q0, hq0, hq0t, hq0id⟩, hmax⟩ := ih r0 hrest
      refine ⟨⟨q0, List.mem_cons_of_mem _ hq0, hq0t, hq0id⟩, ?_⟩
      intro q hq hid
      rcases List.mem_cons.mp hq with h1 | h1
      · subst h1; exact absurd hp hid
      · exact hmax q h1 hid
    · rename_i r0 v
      obtain ⟨⟨q0, hq0, hq0t, hq0id⟩, hmax⟩ := ih r0 hrest
      by_cases hle : r0.1 ≤ p.time
      · rw [if_pos hle] at h
        injection h with h
        subst h
        refine ⟨⟨p, List.mem_cons_self _ _, rfl, hp⟩, ?_⟩
        intro q hq hid
        rcases List.mem_cons.mp hq with h1 | h1
        · subst h1; exact le_refl _
        · exact le_trans (hmax q h1 hid) hle
      · rw [if_neg hle] at h
        injection h with h
        subst h
        refine ⟨⟨q0, List.mem_cons_of_mem _ hq0, hq0t, hq0id⟩, ?_⟩
        intro q hq hid
        rcases List.mem_cons.mp hq with h1 | h1
        · subst h1; exact (lt_of_not_le hle).le
        · exact hmax q h1 hid

/-- Appending a point with a non-null `id` field and a time strictly
later than everything stored makes it the `last(id)` result. -/
theorem selectLast_append_max (L : List Point) (p : Point) (v : Value)
    (hid : idValOf p = some v) (hlt : ∀ q ∈ L, q.time < p.time) :
    selectLast (L ++ [p]) = some (p.time, v) := by
  induction L with
  | nil => simp [selectLast, hid]
  | cons q rest ih =>
    have ih2 := ih fun q2 hm => hlt q2 (List.mem_cons_of_mem _ hm)
    cases hq : idValOf q
    · simp only [List.cons_append, selectLast, List.append_eq, ih2, hq]
    · simp only [List.cons_append, selectLast, List.append_eq, ih2, hq]
      rw [if_neg (not_le.mpr (hlt q (List.mem_cons_self _ _)))]

/-- The head of the descending-time sort is the unique point with the
strictly greatest time key. -/
theorem head_insertionSort_max (l : List Point) (x : Point) (hx : x ∈ l)
    (hmax : ∀ y ∈ l, y ≠ x → y.time < x.time) :
    (l.insertionSort timeDesc).head? = some x := by
  have hperm := List.perm_insertionSort timeDesc l
  have hsort := List.sorted_insertionSort timeDesc l
  have hxs : x ∈ l.insertionSort timeDesc := hperm.mem_iff.mpr hx
  cases hs : l.insertionSort timeDesc with
  | nil => rw [hs] at hxs; cases hxs
  | cons h t =>
    rw [hs] at hxs hsort hperm
    by_cases hxh : h = x
    · rw [hxh]
      rfl
    · have hh : h ∈ l := hperm.subset (List.mem_cons_self _ _)
      have h1 : h.time < x.time := hmax h hh hxh
      have hx_t : x ∈ t := by
        rcases List.mem_cons.mp hxs with h2 | h2
        · exact absurd h2.symm hxh
        · exact h2
      have h2 : timeDesc h x := (List.sorted_cons.mp hsort).1 x hx_t
      exact absurd h1 (not_lt.mpr h2)

/-- The decoded timestamp of a stored point's result row is its time
key. -/
theorem timestamp_decode (p : Point) :
    (event_parser_from_one (result_row p)).timestamp = p.time := by
  simp [event_parser_from_one, result_row, lookupA, intOf]

/-- The measurement of an encoded event is the bucket id. -/
theorem measurement_event_parser_to (bucket_id : String) (e : Event) :
    (event_parser_to bucket_id e).measurement = bucket_id := rfl

/-- The time key of an encoded event is its timestamp. -/
theorem time_event_parser_to (bucket_id : String) (e : Event) :
    (event_parser_to bucket_id e).time = e.timestamp := rfl

/-- An event with a present id and no `id`-named attribute is encoded
with that id as its non-null `id` field. -/
theorem idValOf_event_parser_to (bucket_id : String) (e : Event) (n : Int)
    (hid : e.id = some n) (hdata : ∀ kv ∈ e.data, kv.1 ≠ "id") :
    idValOf (event_parser_to bucket_id e) = some (Value.i n) := by
  have h1 : lookupA (event_parser_to bucket_id e).fields "id" = some (Value.i n) := by
    rw [show (event_parser_to bucket_id e).fields = dictFoldK (fun _ => true)
      (fun k => k) [("id", valOfId e.id), ("duration", Value.f e.duration)] e.data from rfl]
    rw [lookupA_dictFoldK_of_not_mem _ _ _ _ _ hdata]
    simp [lookupA, hid, valOfId]
  simp [idValOf, h1]

/-- With no bounds supplied, the range filter keeps every point. -/
theorem filter_inBounds_none (l : List Point) :
    l.filter (fun p => inBounds none none p.time) = l := by
  have h : (fun p : Point => inBounds none none p.time) = fun _ => true := rfl
  rw [h, List.filter_true]

/-- Reading the written series back out of the database. -/
theorem write_point_read (p : Point) (db : Database) (m : String)
    (h : m = p.measurement) : write_point p db m = setT (db m) p := by
  rw [write_point, if_pos h]

/-- C4: the claim says `insert_many` encodes each event and issues one
bulk write; in the code the loop body `data, event =
self._event_parser_to(bucket_id, event)` tuple-unpacks the four-key
point dict into two names, so any non-empty event list raises
`ValueError` on the first iteration and nothing is ever written. -/
theorem insert_many_always_raises (bucket_id : String) (e : Event)
    (es : List Event) (db : Database) :
    insert_many bucket_id (e :: es) db =
      Except.error "ValueError: too many values to unpack (expected 2)" := rfl

/-- C10: `delete(bucket_id, event_id)` always returns `None` (modelled
as `none`), never a boolean success indicator, whatever the database
contents, despite the declared `-> bool` return type. -/
theorem delete_returns_none (bucket_id : String) (event_id : Int)
    (db : Database) : (delete bucket_id event_id db).1 = none := rfl

/-- C3: on a bucket with events at milliseconds 1 and 3 (both with
non-null ids), `get_eventcount` with the inclusive lower bound 2 still
returns 2, although the same bound on the range-read path `get_events`
leaves a single event: the count path ignores the time filters the claim
requires it to honor. -/
theorem get_eventcount_ignores_bounds :
    get_eventcount "b" (some 2) none dbC3 = 2 ∧
      (get_events "b" (-1) (some 2) none dbC3).length = 1 := by decide

/-- C1 counterexample: in a bucket already containing events, inserting
event A (timestamp 2) and then calling `replace_last` with event B
(timestamp 3) changes the total event count — the overwrite path writes
B at B's own timestamp, so a replacement whose timestamp differs from
the last event's creates a new point instead of replacing. -/
theorem replace_last_changes_count_cex :
    get_eventcount "b" none none
        (replace_last "b" eventB_C1 (insert_one "b" eventA_C1 dbC1).2).2 ≠
      get_eventcount "b" none none (insert_one "b" eventA_C1 dbC1).2 := by decide

/-- C2 counterexample: a bucket holding N = 1 event; `get_events` with
`limit = 0` returns 1 event, not `min(N, 0) = 0`, because the Python
guard `if limit and limit > -1` treats 0 as falsy and omits the LIMIT
clause. -/
theorem get_events_limit_zero_cex :
    (get_events "b" (-1) none none dbC2).length = 1 ∧
      (get_events "b" 0 none none dbC2).length ≠
        min ((get_events "b" (-1) none none dbC2).length) 0 := by decide

/-- C5 counterexample: an event with a non-empty attribute bag, positive
duration and the truthy attribute `_a` — after encoding and decoding,
the attribute is gone, because `_event_parser_from` skips every column
whose name starts with an underscore. -/
theorem round_trip_drops_underscore_cex :
    eventC5.data ≠ [] ∧ 0 < eventC5.duration ∧
      ("_a", Value.s "x") ∈ eventC5.data ∧ truthy (Value.s "x") = true ∧
      lookupA (event_parser_from_one (result_row
        (event_parser_to "b" eventC5))).data "_a" = none := by decide

/-- C6: creating the same bucket twice with different creation times
leaves two metadata records tagged `b1`; `get_metadata "b1"` then
silently answers with the first matching record instead of failing with
`IntegrityError`, and `get_metadata` for an absent bucket raises bare
`StopIteration` instead of `NotFoundError`. -/
theorem get_metadata_first_match_and_stop :
    ((dbC6 "metadata").filter
        (fun p => lookupA p.tags "id" = some (Value.s "b1"))).length = 2 ∧
      (∃ r, get_metadata "b1" dbC6 = Except.ok r) ∧
      get_metadata "b2" dbC6 = Except.error PyErr.stopIteration := by
  refine ⟨by decide, ⟨_, rfl⟩, rfl⟩

/-- C8: whatever the bucket, limit and time bounds, the events returned
by `get_events` carry non-increasing timestamps (most-recent-first), as
forced by the `ORDER BY time DESC` clause. -/
theorem get_events_sorted_desc (db : Database) (bucket_id : String)
    (limit : Int) (starttime endtime : Option Int) :
    ((get_events bucket_id limit starttime endtime db).map Event.timestamp).Pairwise
      (fun a b => b ≤ a) := by
  have key : ∀ l : List Point, l.Pairwise timeDesc →
      ((event_parser_from (l.map result_row)).map Event.timestamp).Pairwise
        (fun a b => b ≤ a) := by
    intro l hl
    unfold event_parser_from
    rw [List.map_map, List.map_map, List.pairwise_map]
    refine hl.imp ?_
    intro a b hab
    simpa [Function.comp, timestamp_decode] using hab
  simp only [get_events]
  by_cases hc : limit ≠ 0 ∧ -1 < limit
  · rw [if_pos hc]
    exact key _ (List.Pairwise.sublist (List.take_sublist _ _)
      (List.sorted_insertionSort timeDesc _))
  · rw [if_neg hc]
    exact key _ (List.sorted_insertionSort timeDesc _)

/-- C2 amended: for a bucket holding N events, `get_events` with
`limit = K ≥ 1` returns exactly `min(N, K)` events and `limit = -1`
returns all N, as claimed; but `limit = 0` also returns all N events
(the Python guard `if limit and limit > -1` treats 0 as falsy), not
`min(N, 0) = 0`. -/
theorem get_events_limit_semantics (db : Database) (bucket_id : String)
    (K : Nat) (hK : 1 ≤ K) :
    (get_events bucket_id (K : Int) none none db).length =
        min ((db bucket_id).length) K ∧
      (get_events bucket_id 0 none none db).length = (db bucket_id).length ∧
      (get_events bucket_id (-1) none none db).length = (db bucket_id).length := by
  have hsortlen : ((db bucket_id).insertionSort timeDesc).length =
      (db bucket_id).length := (List.perm_insertionSort timeDesc _).length_eq
  refine ⟨?_, ?_, ?_⟩
  · simp only [get_events, filter_inBounds_none]
    rw [if_pos (by constructor <;> omega)]
    simp only [event_parser_from, List.length_map, List.length_take]
    rw [hsortlen]
    omega
  · simp only [get_events, filter_inBounds_none]
    rw [if_neg (fun h => h.1 rfl)]
    simp only [event_parser_from, List.length_map]
    exact hsortlen
  · simp only [get_events, filter_inBounds_none]
    rw [if_neg (by decide)]
    simp only [event_parser_from, List.length_map]
    exact hsortlen

/-- C2 witness: a bucket with two events; `limit = 2 ≥ 1` is allowed by
the amended statement and the three limit behaviors evaluate as
stated. -/
theorem get_events_limit_semantics_witness :
    (get_events "b" ((2 : Nat) : Int) none none dbC2w).length =
        min ((dbC2w "b").length) 2 ∧
      (get_events "b" 0 none none dbC2w).length = (dbC2w "b").length ∧
      (get_events "b" (-1) none none dbC2w).length = (dbC2w "b").length :=
  get_events_limit_semantics dbC2w "b" 2 (by decide)

/-- C7: whenever a bucket stores at least one point with a non-null `id`
field, `_get_last_event_id` returns the time key of the latest such
point. -/
theorem get_last_event_id_returns_time_key (db : Database) (bucket_id : String)
    (h : ∃ p ∈ db bucket_id, (idValOf p).isSome = true) :
    ∃ p ∈ db bucket_id, (idValOf p).isSome = true ∧
      _get_last_event_id bucket_id db = some p.time ∧
      ∀ q ∈ db bucket_id, (idValOf q).isSome = true → q.time ≤ p.time := by
  cases hsel : selectLast (db bucket_id) with
  | none =>
    obtain ⟨p, hp, hid⟩ := h
    rw [selectLast_eq_none _ hsel p hp] at hid
    cases hid
  | some r =>
    obtain ⟨⟨q0, hq0, hq0t, hq0id⟩, hmax⟩ := selectLast_eq_some _ _ hsel
    refine ⟨q0, hq0, by simp [hq0id], ?_, ?_⟩
    · simp [_get_last_event_id, hsel, hq0t]
    · intro q hq hid
      refine le_trans (hmax q hq ?_) (le_of_eq hq0t.symm)
      intro hnone
      rw [hnone] at hid
      cases hid

/-- C7 witness: a bucket with one point whose time key is 5 and whose
stored `id` field is 99; `_get_last_event_id` answers 5 (the time key),
not 99 (the field value). -/
theorem get_last_event_id_returns_time_key_witness :
    (∃ p ∈ dbC7 "b", (idValOf p).isSome = true ∧
        _get_last_event_id "b" dbC7 = some p.time ∧
        ∀ q ∈ dbC7 "b", (idValOf q).isSome = true → q.time ≤ p.time) ∧
      _get_last_event_id "b" dbC7 = some 5 ∧
      lookupA pC7.fields "id" = some (Value.i 99) :=
  ⟨get_last_event_id_returns_time_key dbC7 "b" ⟨pC7, by decide, by decide⟩,
    rfl, rfl⟩

/-- C9: a decoded record's event id is the raw value of the `time` key,
and a truthy stored `id` field is copied into the event's data mapping
like any other attribute. -/
theorem decode_id_from_time_key (r : List (String × Value)) (t : Int)
    (v : Value) (hn : (r.map Prod.fst).Nodup)
    (ht : lookupA r "time" = some (Value.i t))
    (hid : lookupA r "id" = some v) (htr : truthy v = true) :
    (event_parser_from_one r).id = some t ∧
      lookupA (event_parser_from_one r).data "id" = some v := by
  constructor
  · simp [event_parser_from_one, ht, intOf]
  · have hmem : ("id", v) ∈ r := lookupA_mem _ _ _ hid
    have hP : keepColumn ("id", v) = true := by simp [keepColumn, htr]
    show lookupA (dictFoldK keepColumn (fun k2 => k2) [] r) "id" = some v
    exact lookupA_dictFoldK_of_mem keepColumn r [] "id" v hn hmem hP

/-- C9 witness: a record with time key 42 and stored id field 7 decodes
to an event with id 42 whose data bag holds the field value 7. -/
theorem decode_id_from_time_key_witness :
    (event_parser_from_one rowC9).id = some 42 ∧
      lookupA (event_parser_from_one rowC9).data "id" = some (Value.i 7) :=
  decode_id_from_time_key rowC9 42 (Value.i 7) (by decide) (by decide)
    (by decide) (by decide)

/-- C5 amended: the round trip `fromPoints ∘ toPoint` reproduces the
duration exactly and every non-falsy attribute — provided no attribute
is named `time` or `duration`, none has an empty name, and none has a
name starting with an underscore; the counterexample shows the claim is
false without the underscore restriction (such attributes collide with
the reserved columns, the tag-disambiguation namespace, or the
`key[0]` indexing, and are lost or mis-read). -/
theorem round_trip_amended (bucket_id : String) (e : Event)
    (_hne : e.data ≠ []) (_hdur : 0 < e.duration)
    (hnodup : (e.data.map Prod.fst).Nodup)
    (hkeys : ∀ kv ∈ e.data, kv.1 ≠ "time" ∧ kv.1 ≠ "duration" ∧
      kv.1 ≠ "" ∧ kv.1.data.head? ≠ some '_') :
    (event_parser_from_one (result_row (event_parser_to bucket_id e))).duration
        = e.duration ∧
      ∀ kv ∈ e.data, truthy kv.2 = true →
        lookupA (event_parser_from_one (result_row
          (event_parser_to bucket_id e))).data kv.1 = some kv.2 := by
  have hFdef : (event_parser_to bucket_id e).fields =
      dictFoldK (fun _ => true) (fun k => k)
        [("id", valOfId e.id), ("duration", Value.f e.duration)] e.data := rfl
  have hTdef : (event_parser_to bucket_id e).tags =
      dictFoldK (fun kv => kv.1 ∈ adapter_tags) (fun k => "_" ++ k) [] e.data := rfl
  have hRdef : result_row (event_parser_to bucket_id e) =
      ("time", Value.i e.timestamp) :: ((event_parser_to bucket_id e).fields ++
        (event_parser_to bucket_id e).tags) := rfl
  have hdur_lookup : lookupA (event_parser_to bucket_id e).fields "duration" =
      some (Value.f e.duration) := by
    rw [hFdef, lookupA_dictFoldK_of_not_mem _ _ _ _ _
      (fun kv hm => (hkeys kv hm).2.1)]
    simp [lookupA]
  have hFkeys : ∀ x ∈ (event_parser_to bucket_id e).fields.map Prod.fst,
      x = "id" ∨ x = "duration" ∨ x ∈ e.data.map Prod.fst := by
    intro x hx
    rw [hFdef] at hx
    rcases mem_keys_dictFoldK _ _ _ _ _ hx with h1 | ⟨kv, hkv, he⟩
    · simp at h1
      tauto
    · have he2 : x = kv.1 := he
      rw [he2]
      exact Or.inr (Or.inr (List.mem_map_of_mem Prod.fst hkv))
  have hFhead : ∀ x ∈ (event_parser_to bucket_id e).fields.map Prod.fst,
      x.data.head? ≠ some '_' := by
    intro x hx
    rcases hFkeys x hx with h1 | h1 | h1
    · rw [h1]; decide
    · rw [h1]; decide
    · obtain ⟨kv, hkv, he⟩ := List.mem_map.mp h1
      rw [← he]
      exact (hkeys kv hkv).2.2.2
  have hTkeys : ∀ y ∈ (event_parser_to bucket_id e).tags.map Prod.fst,
      y.data.head? = some '_' := by
    intro y hy
    rw [hTdef] at hy
    rcases mem_keys_dictFoldK _ _ _ _ _ hy with h1 | ⟨kv, hkv, he⟩
    · simp at h1
    · have he2 : y = "_" ++ kv.1 := he
      rw [he2, String.data_append]
      rfl
  have hNodupF : ((event_parser_to bucket_id e).fields.map Prod.fst).Nodup := by
    rw [hFdef]
    exact nodup_keys_dictFoldK (fun _ => true) (fun k => k) e.data
      [("id", valOfId e.id), ("duration", Value.f e.duration)] (by simp)
  have hNodupT : ((event_parser_to bucket_id e).tags.map Prod.fst).Nodup := by
    rw [hTdef]
    exact nodup_keys_dictFoldK _ _ _ _ List.nodup_nil
  have hdisj : ((event_parser_to bucket_id e).fields.map Prod.fst).Disjoint
      ((event_parser_to bucket_id e).tags.map Prod.fst) := by
    intro x hx1 hx2
    exact hFhead x hx1 (hTkeys x hx2)
  have htime : "time" ∉ (event_parser_to bucket_id e).fields.map Prod.fst ++
      (event_parser_to bucket_id e).tags.map Prod.fst := by
    intro hmem
    rcases List.mem_append.mp hmem with h1 | h1
    · rcases hFkeys _ h1 with h2 | h2 | h2
      · exact absurd h2 (by decide)
      · exact absurd h2 (by decide)
      · obtain ⟨kv, hkv, he⟩ := List.mem_map.mp h2
        exact (hkeys kv hkv).1 he
    · have := hTkeys _ h1
      simp at this
  have hNodupRow : ((result_row (event_parser_to bucket_id e)).map
      Prod.fst).Nodup := by
    rw [hRdef]
    simp only [List.map_cons, List.map_append]
    exact List.nodup_cons.mpr ⟨htime, List.Nodup.append hNodupF hNodupT hdisj⟩
  constructor
  · show ratOf (lookupA (result_row (event_parser_to bucket_id e)) "duration")
      = e.duration
    rw [hRdef, lookupA, if_neg (by decide),
      lookupA_append_left _ _ _ _ hdur_lookup]
    rfl
  · intro kv hkv htr
    have hlf : lookupA (event_parser_to bucket_id e).fields kv.1 = some kv.2 := by
      rw [hFdef]
      exact lookupA_dictFoldK_of_mem (fun _ => true) e.data _ kv.1 kv.2
        hnodup hkv rfl
    have hmemrow : (kv.1, kv.2) ∈ result_row (event_parser_to bucket_id e) := by
      rw [hRdef]
      exact List.mem_cons_of_mem _ (List.mem_append_left _
        (lookupA_mem _ _ _ hlf))
    have hP : keepColumn (kv.1, kv.2) = true := by
      obtain ⟨h1, h2, _h3, h4⟩ := hkeys kv hkv
      simp [keepColumn, h1, h2, h4, htr]
    show lookupA (dictFoldK keepColumn (fun k2 => k2) []
      (result_row (event_parser_to bucket_id e))) kv.1 = some kv.2
    exact lookupA_dictFoldK_of_mem keepColumn _ [] kv.1 kv.2 hNodupRow
      hmemrow hP

/-- C5 witness: an event with a tag-set attribute, a plain attribute and
a falsy attribute, with a two-second duration; the amended round-trip
statement instantiates to it. -/
theorem round_trip_amended_witness :
    (event_parser_from_one (result_row (event_parser_to "b" eventC5w))).duration
        = eventC5w.duration ∧
      ∀ kv ∈ eventC5w.data, truthy kv.2 = true →
        lookupA (event_parser_from_one (result_row
          (event_parser_to "b" eventC5w))).data kv.1 = some kv.2 :=
  round_trip_amended "b" eventC5w (by decide) (by decide) (by decide) (by decide)

/-- C1 amended: inserting event A (with a non-null id, later than
everything already stored, and no attribute named `id`) and then calling
`replace_last` with an event B whose timestamp coincides with A's leaves
the total event count unchanged, and the latest event in the bucket is
exactly the decoding of B's written point (B with its id forced to the
replaced timestamp); the counterexample shows the unrestricted claim is
false — when B's timestamp differs, the overwrite path creates a new
point and the count grows. -/
theorem replace_last_same_timestamp (db : Database) (bucket_id : String)
    (A B : Event) (a : Int) (hA : A.id = some a)
    (hAdata : ∀ kv ∈ A.data, kv.1 ≠ "id")
    (hBdata : ∀ kv ∈ B.data, kv.1 ≠ "id")
    (hprior : ∀ p ∈ db bucket_id, p.time < A.timestamp)
    (hBt : B.timestamp = A.timestamp) :
    get_eventcount bucket_id none none
        (replace_last bucket_id B (insert_one bucket_id A db).2).2 =
      get_eventcount bucket_id none none (insert_one bucket_id A db).2 ∧
      (get_events bucket_id (-1) none none
          (replace_last bucket_id B (insert_one bucket_id A db).2).2).head? =
        some (event_parser_from_one (result_row
          (event_parser_to bucket_id { B with id := some A.timestamp }))) := by
  set pA := event_parser_to bucket_id A with hpA
  have hpam : pA.measurement = bucket_id := rfl
  have hpat : pA.time = A.timestamp := rfl
  have db1_eq : (insert_one bucket_id A db).2 = write_point pA db := rfl
  have hL1 : write_point pA db bucket_id = db bucket_id ++ [pA] := by
    rw [write_point_read pA db bucket_id hpam.symm]
    exact setT_append_of_not_mem _ _
      (fun q hq => by rw [hpat]; exact (hprior q hq).ne)
  have hidA : idValOf pA = some (Value.i a) :=
    idValOf_event_parser_to bucket_id A a hA hAdata
  have hlast1 : _get_last_event_id bucket_id (write_point pA db) =
      some A.timestamp := by
    rw [_get_last_event_id, hL1,
      selectLast_append_max (db bucket_id) pA (Value.i a) hidA
        (fun q hq => by rw [hpat]; exact hprior q hq)]
    simp [hpat]
  have hrepl : (replace_last bucket_id B (insert_one bucket_id A db).2).2 =
      write_point (event_parser_to bucket_id { B with id := some A.timestamp })
        (write_point pA db) := by
    rw [db1_eq]
    simp only [replace_last, insert_one, hlast1]
  set pB := event_parser_to bucket_id { B with id := some A.timestamp } with hpB
  have hpbm : pB.measurement = bucket_id := rfl
  have hpbt : pB.time = A.timestamp := hBt
  have hidB : idValOf pB = some (Value.i A.timestamp) :=
    idValOf_event_parser_to bucket_id _ A.timestamp rfl hBdata
  have hL2 : write_point pB (write_point pA db) bucket_id =
      db bucket_id ++ [pB] := by
    rw [write_point_read pB _ bucket_id hpbm.symm, hL1]
    exact setT_append_last _ _ _
      (fun q hq => by rw [hpbt]; exact (hprior q hq).ne) (by rw [hpat, hpbt])
  constructor
  · rw [hrepl, db1_eq]
    simp only [get_eventcount]
    rw [hL2, hL1, List.filter_append, List.filter_append, List.length_append,
      List.length_append]
    congr 1
    simp [List.filter, hidA, hidB]
  · rw [hrepl]
    simp only [get_events]
    rw [if_neg (by decide), hL2, filter_inBounds_none]
    have hhead : (List.insertionSort timeDesc (db bucket_id ++ [pB])).head? =
        some pB := by
      refine head_insertionSort_max _ pB
        (List.mem_append_right _ (List.mem_cons_self _ _)) ?_
      intro y hy hne
      rcases List.mem_append.mp hy with h1 | h1
      · rw [hpbt]; exact hprior y h1
      · exact absurd (List.mem_singleton.mp h1) hne
    rw [event_parser_from, List.head?_map, List.head?_map, hhead]
    rfl

/-- C1 witness: the bucket `b` already holds events; A (timestamp 2,
id 9) is inserted and `replace_last` is called with a B sharing
timestamp 2; the amended statement instantiates to it. -/
theorem replace_last_same_timestamp_witness :
    get_eventcount "b" none none
        (replace_last "b" eventBW_C1 (insert_one "b" eventA_C1 dbC1).2).2 =
      get_eventcount "b" none none (insert_one "b" eventA_C1 dbC1).2 ∧
      (get_events "b" (-1) none none
          (replace_last "b" eventBW_C1 (insert_one "b" eventA_C1 dbC1).2).2).head? =
        some (event_parser_from_one (result_row
          (event_parser_to "b" { eventBW_C1 with id := some eventA_C1.timestamp }))) :=
  replace_last_same_timestamp dbC1 "b" eventA_C1 eventBW_C1 9 rfl
    (by decide) (by decide) (by decide) rfl
